import Mathlib

/-!
Verification of the HOG (Histogram of Oriented Gradients) descriptor pipeline
implemented in `src/hog_descriptor.py`.

The four Python functions are shallowly embedded over `ℝ`:
* `compute_image_gradients`   — Sobel cross-correlation with 1-pixel zero padding
  (the semantics of `torch.nn.functional.conv2d` with `padding = 1`);
* `compute_magnitudes_and_orientations` — squared magnitude `Ix² + Iy²` and
  orientation `atan2(Iy, Ix)` (embedded as `Complex.arg ⟨x, y⟩`);
* `create_histogram`          — `np.histogram` with `np.linspace` bin edges and
  `np.around(·, 5)` rounding of the orientations;
* `create_image_histograms`   — the per-cell histogram grid (including the
  source's `M//cell_size` allocation for both grid dimensions, its silently
  clipped slices, and the `IndexError` reachable for tall images);
* `create_descriptor`         — block gathering, flattening and L2
  normalisation.

Images are modelled as a pair of dimensions plus a total valuation function
(`Img2`), 3-D arrays likewise (`Grid3`).  Python-level failures
(`assert` statements, `IndexError`, `ZeroDivisionError`) are modelled with
`Except HogErr`; a function with no failure path is embedded as a total
function.  `np.around` is embedded as exact round-half-to-even on `ℝ`.
-/

open Real

/-- A 2-D array of real samples: `rows × cols`, entries `val i j` for
`i < rows`, `j < cols` (values outside that range are irrelevant). -/
structure Img2 where
  rows : ℕ
  cols : ℕ
  val : ℕ → ℕ → ℝ

/-- A 3-D array of real samples: `d1 × d2 × d3`. -/
structure Grid3 where
  d1 : ℕ
  d2 : ℕ
  d3 : ℕ
  val : ℕ → ℕ → ℕ → ℝ

/-- Failure modes of the Python code.  The two `assert` statements are named
with the spec's taxonomy (`UnalignedDimensionsError`, `InvalidBlockConfigError`);
`indexOutOfRange` models a numpy `IndexError`, `zeroDivision` a Python
`ZeroDivisionError`. -/
inductive HogErr where
  | unalignedDimensions : HogErr
  | invalidBlockConfig : HogErr
  | indexOutOfRange : HogErr
  | zeroDivision : HogErr
deriving DecidableEq

/-- `SOBEL_X_KERNEL` from the source (row, column indexed). -/
def SOBEL_X_KERNEL : ℕ → ℕ → ℝ
  | 0, 0 => -1
  | 0, 1 => 0
  | 0, 2 => 1
  | 1, 0 => -2
  | 1, 1 => 0
  | 1, 2 => 2
  | 2, 0 => -1
  | 2, 1 => 0
  | 2, 2 => 1
  | _, _ => 0

/-- `SOBEL_Y_KERNEL` from the source. -/
def SOBEL_Y_KERNEL : ℕ → ℕ → ℝ
  | 0, 0 => 1
  | 0, 1 => 2
  | 0, 2 => 1
  | 1, 0 => 0
  | 1, 1 => 0
  | 1, 2 => 0
  | 2, 0 => -1
  | 2, 1 => -2
  | 2, 2 => -1
  | _, _ => 0

/-- The image read at integer coordinates, `0` outside the support: this is
exactly the pixel the zero-padded convolution reads. -/
def Img2.valZ (img : Img2) (r c : ℤ) : ℝ :=
  if 0 ≤ r ∧ r < (img.rows : ℤ) ∧ 0 ≤ c ∧ c < (img.cols : ℤ) then
    img.val r.toNat c.toNat
  else 0

/-- `torch.nn.functional.conv2d` with a 3×3 kernel, `padding = 1` and stride 1
(PyTorch "convolution" is cross-correlation): output pixel `(i, j)` is
`Σ_{k,l<3} K k l * img[i+k-1, j+l-1]` with zero outside the image.  The output
has the input's `rows × cols` shape. -/
def conv2dPad1 (K : ℕ → ℕ → ℝ) (img : Img2) : Img2 :=
  ⟨img.rows, img.cols, fun i j =>
    ∑ k in Finset.range 3, ∑ l in Finset.range 3,
      K k l * img.valZ ((i : ℤ) + k - 1) ((j : ℤ) + l - 1)⟩

/-- `compute_image_gradients` from the source: `(Ix, Iy)`, the image
cross-correlated with the two Sobel kernels under 1-pixel zero padding.
The Python code performs no input validation, so the embedding is total. -/
def compute_image_gradients (img_gray : Img2) : Img2 × Img2 :=
  (conv2dPad1 SOBEL_X_KERNEL img_gray, conv2dPad1 SOBEL_Y_KERNEL img_gray)

/-- The spec's description of the padding step, stated independently: the
image extended by one explicit row/column of zeros on each side. -/
def zeroPad1 (img : Img2) : Img2 :=
  ⟨img.rows + 2, img.cols + 2, fun i j =>
    if 1 ≤ i ∧ i ≤ img.rows ∧ 1 ≤ j ∧ j ≤ img.cols then
      img.val (i - 1) (j - 1)
    else 0⟩

/-- Valid (no padding, stride 1) 3×3 cross-correlation, used to state the
spec's "pad with zeros, then slide the kernel" reading of the convolution. -/
def crossCorrValid (K : ℕ → ℕ → ℝ) (img : Img2) : Img2 :=
  ⟨img.rows - 2, img.cols - 2, fun i j =>
    ∑ k in Finset.range 3, ∑ l in Finset.range 3,
      K k l * img.val (i + k) (j + l)⟩

/-- `np.arctan2 y x`, embedded as the principal argument of the complex number
`x + y·i`; range `(-π, π]`, with `arctan2 0 0 = 0`. -/
noncomputable def arctan2 (y x : ℝ) : ℝ :=
  Complex.arg ⟨x, y⟩

/-- `compute_magnitudes_and_orientations` from the source: returns
`(orientation, grad_magnitude)` with `orientation = arctan2(Iy, Ix)` and
`grad_magnitude = Ix² + Iy²` (squared, not square-rooted). -/
noncomputable def compute_magnitudes_and_orientations (image_gray : Img2) :
    Img2 × Img2 :=
  let Ix := (compute_image_gradients image_gray).1
  let Iy := (compute_image_gradients image_gray).2
  (⟨Ix.rows, Ix.cols, fun i j => arctan2 (Iy.val i j) (Ix.val i j)⟩,
   ⟨Ix.rows, Ix.cols, fun i j => Ix.val i j ^ 2 + Iy.val i j ^ 2⟩)

/-- Round half to even, the tie-breaking rule of `np.around`. -/
noncomputable def roundHalfEven (x : ℝ) : ℤ :=
  if Int.fract x = 1 / 2 then
    (if Even ⌊x⌋ then ⌊x⌋ else ⌊x⌋ + 1)
  else round x

/-- `np.around(x, decimals=5)`: round half to even at the fifth decimal. -/
noncomputable def round5 (x : ℝ) : ℝ :=
  (roundHalfEven (x * 100000) : ℝ) / 100000

/-- `np.linspace a b n`: `n` evenly spaced samples from `a` to `b`, both
endpoints included. -/
noncomputable def linspace (a b : ℝ) (n : ℕ) : List ℝ :=
  (List.range n).map (fun k : ℕ => a + (k : ℝ) * ((b - a) / ((n : ℝ) - 1)))

/-- `np.histogram values edges weights`: one weighted count per bin.  A pixel
is a `(weight, value)` pair.  Bin `k` collects `edges[k] ≤ v < edges[k+1]`,
except the last bin, which also includes its right edge.  Values outside all
edges contribute nothing. -/
noncomputable def histogramW (pixels : List (ℝ × ℝ)) (edges : List ℝ) : List ℝ :=
  (List.range (edges.length - 1)).map (fun k =>
    (pixels.map (fun p =>
      if edges.getD k 0 ≤ p.2 ∧
          (if k + 2 = edges.length then p.2 ≤ edges.getD (k + 1) 0
           else p.2 < edges.getD (k + 1) 0) then
        p.1
      else 0)).sum)

/-- `create_histogram` from the source.  A pixel of the cell is passed as a
`(magnitude, orientation)` pair (the Python code passes the two parallel
arrays `cell_magnitudes`, `cell_orientations`).  Orientations are rounded to
5 decimals, the edges are `np.linspace(-π-π/8, π-π/8, num_bins+1)`, and the
histogram is weighted by the magnitudes.  Returns `(histogram, bin_ticks)`. -/
noncomputable def create_histogram (pixels : List (ℝ × ℝ)) (num_bins : ℕ) :
    List ℝ × List ℝ :=
  (histogramW (pixels.map (fun p => (p.1, round5 p.2)))
      (linspace (-π - π / 8) (π - π / 8) (num_bins + 1)),
   linspace (-π - π / 8) (π - π / 8) (num_bins + 1))

/-- The `(magnitude, orientation)` pairs of the cell slice
`[i*cs : (i+1)*cs, j*cs : (j+1)*cs]`, with numpy's silent clipping of slice
bounds to the array extent. -/
noncomputable def cellPixels (mag orient : Img2) (cs i j : ℕ) : List (ℝ × ℝ) :=
  (((List.range cs).map (fun r => i * cs + r)).filter (fun r => r < mag.rows)).flatMap
    (fun r =>
      (((List.range cs).map (fun c => j * cs + c)).filter (fun c => c < mag.cols)).map
        (fun c => (mag.val r c, orient.val r c)))

/-- The `(magnitude, orientation)` pairs of the exact rectangular region
`[r0, r1) × [c0, c1)`, with no clipping; used to state what a cell's
histogram ranges over. -/
noncomputable def regionPixels (mag orient : Img2) (r0 r1 c0 c1 : ℕ) :
    List (ℝ × ℝ) :=
  (List.range (r1 - r0)).flatMap (fun dr =>
    (List.range (c1 - c0)).map (fun dc =>
      (mag.val (r0 + dr) (c0 + dc), orient.val (r0 + dr) (c0 + dc))))

/-- `create_image_histograms` from the source, for an image with `N` rows and
`M` columns (`N, M = image_gray.shape`):
* `cell_size = 0` raises `ZeroDivisionError` inside the first `assert`;
* `assert M % cell_size == 0` and `assert N % cell_size == 0` (modelled with
  the spec's name `UnalignedDimensionsError`);
* the output grid is allocated as `np.zeros((M//cs, M//cs, 8))` — `M` twice —
  while the loops run `i` over `range(M//cs)` and `j` over `range(N//cs)`,
  so when `1 ≤ M//cs < N//cs` the store `histogram_grid[i, j]` raises
  `IndexError`;
* otherwise cell `(i, j)` (for `i < M//cs`, `j < N//cs`) holds the histogram
  of the clipped slice, the remaining allocated entries stay zero, and
  `bin_ticks` is `None` unless the loop body ran at least once. -/
noncomputable def create_image_histograms (image_gray : Img2) (cell_size : ℕ) :
    Except HogErr (Grid3 × Option (List ℝ)) :=
  let N := image_gray.rows
  let M := image_gray.cols
  let om := compute_magnitudes_and_orientations image_gray
  if cell_size = 0 then .error .zeroDivision
  else if ¬M % cell_size = 0 then .error .unalignedDimensions
  else if ¬N % cell_size = 0 then .error .unalignedDimensions
  else if 1 ≤ M / cell_size ∧ M / cell_size < N / cell_size then
    .error .indexOutOfRange
  else
    .ok (⟨M / cell_size, M / cell_size, 8, fun i j b =>
           if i < M / cell_size ∧ j < N / cell_size ∧ b < 8 then
             ((create_histogram (cellPixels om.2 om.1 cell_size i j) 8).1).getD b 0
           else 0⟩,
         if 1 ≤ M / cell_size ∧ 1 ≤ N / cell_size then
           some (linspace (-π - π / 8) (π - π / 8) 9)
         else none)

/-- The flattened `block_size × block_size` window of histograms whose
top-left cell is `(i*step, j*step)`: numpy's row-major `flatten()` of the
slice, i.e. row, then column, then bin order. -/
noncomputable def windowFlatten (g : Grid3) (block_size step_size i j : ℕ) :
    List ℝ :=
  (List.range block_size).flatMap (fun r =>
    (List.range block_size).flatMap (fun c =>
      (List.range g.d3).map (fun b =>
        g.val (i * step_size + r) (j * step_size + c) b)))

/-- `np.linalg.norm`: the Euclidean norm of a flat vector. -/
noncomputable def listNorm (xs : List ℝ) : ℝ :=
  Real.sqrt ((xs.map (fun x => x ^ 2)).sum)

/-- The loop body of `create_descriptor`: the `m × n × (d3·K²)` block grid,
entry `(i, j)` being the flattened window, divided by its Euclidean norm
whenever that norm is nonzero. -/
noncomputable def createDescriptorGrid (g : Grid3) (block_size step_size : ℕ) :
    Grid3 :=
  let m := (g.d1 + 1 - block_size) / step_size
  let n := (g.d2 + 1 - block_size) / step_size
  let L := g.d3 * block_size ^ 2
  ⟨m, n, L, fun i j l =>
    if i < m ∧ j < n ∧ l < L then
      (let bc := windowFlatten g block_size step_size i j
       if ¬listNorm bc = 0 then (bc.map (fun x => x / listNorm bc)).getD l 0
       else bc.getD l 0)
    else 0⟩

/-- `create_descriptor` from the source:
* `M = len(histogram_grid)` then `N = len(histogram_grid[0])` — the latter
  raises `IndexError` when the grid has no rows;
* `assert block_size <= M and block_size <= N` (spec name
  `InvalidBlockConfigError`);
* `step_size = 0` raises `ZeroDivisionError` computing `m`;
* `len(histogram_grid[0][0])` raises `IndexError` when the grid has no
  columns;
* otherwise the block grid of `createDescriptorGrid`. -/
noncomputable def create_descriptor (histogram_grid : Grid3)
    (block_size step_size : ℕ) : Except HogErr Grid3 :=
  if histogram_grid.d1 = 0 then .error .indexOutOfRange
  else if ¬(block_size ≤ histogram_grid.d1 ∧ block_size ≤ histogram_grid.d2) then
    .error .invalidBlockConfig
  else if step_size = 0 then .error .zeroDivision
  else if histogram_grid.d2 = 0 then .error .indexOutOfRange
  else .ok (createDescriptorGrid histogram_grid block_size step_size)

/-! ### List and index helper lemmas -/

lemma sum_map_range (n : ℕ) (f : ℕ → ℝ) :
    ((List.range n).map f).sum = ∑ k in Finset.range n, f k := by
  induction n with
  | zero => simp
  | succ n ih =>
    rw [List.range_succ, List.map_append, List.sum_append, Finset.sum_range_succ, ih]
    simp

lemma getD_map_range {n k : ℕ} (f : ℕ → ℝ) (h : k < n) :
    ((List.range n).map f).getD k 0 = f k := by
  rw [List.getD_eq_getElem?_getD]
  simp [List.getElem?_map, List.getElem?_range, h]

lemma getD_map_of_lt {l : List ℝ} {k : ℕ} (f : ℝ → ℝ) (h : k < l.length) :
    (l.map f).getD k 0 = f (l.getD k 0) := by
  rw [List.getD_eq_getElem?_getD, List.getD_eq_getElem?_getD, List.getElem?_map,
    List.getElem?_eq_getElem h]
  simp

lemma flatMap_range_map (m n : ℕ) (g : ℕ → ℕ → ℝ) :
    (List.range m).flatMap (fun i => (List.range n).map (g i)) =
      (List.range (m * n)).map (fun l => g (l / n) (l % n)) := by
  rcases Nat.eq_zero_or_pos n with hn | hn
  · subst hn; simp
  induction m with
  | zero => simp
  | succ m ih =>
    rw [List.range_succ, List.flatMap_append, ih, Nat.succ_mul, List.range_add,
      List.map_append, List.map_map]
    congr 1
    · simp only [List.flatMap_cons, List.flatMap_nil, List.append_nil]
      apply List.map_congr_left
      intro t ht
      have htn : t < n := List.mem_range.mp ht
      have h1 : (m * n + t) / n = m := by
        rw [Nat.mul_comm m n, Nat.mul_add_div hn, Nat.div_eq_of_lt htn]
        omega
      have h2 : (m * n + t) % n = t := by
        rw [Nat.mul_comm m n, Nat.mul_add_mod, Nat.mod_eq_of_lt htn]
      simp [h1, h2]

lemma windowFlatten_eq (g : Grid3) (K S i j : ℕ) :
    windowFlatten g K S i j =
      (List.range (K * (K * g.d3))).map (fun l =>
        g.val (i * S + l / (K * g.d3)) (j * S + l / g.d3 % K) (l % g.d3)) := by
  unfold windowFlatten
  have h1 : ∀ r : ℕ,
      (List.range K).flatMap (fun c =>
        (List.range g.d3).map (fun b => g.val (i * S + r) (j * S + c) b)) =
      (List.range (K * g.d3)).map (fun t =>
        g.val (i * S + r) (j * S + t / g.d3) (t % g.d3)) := by
    intro r
    exact flatMap_range_map K g.d3 (fun c b => g.val (i * S + r) (j * S + c) b)
  simp only [h1]
  rw [flatMap_range_map K (K * g.d3)
    (fun r t => g.val (i * S + r) (j * S + t / g.d3) (t % g.d3))]
  apply List.map_congr_left
  intro l hl
  have h2 : l % (K * g.d3) / g.d3 = l / g.d3 % K := by
    rw [Nat.mul_comm K g.d3, Nat.mod_mul_right_div_self]
  have h3 : l % (K * g.d3) % g.d3 = l % g.d3 :=
    Nat.mod_mod_of_dvd l (dvd_mul_left g.d3 K)
  rw [h2, h3]

lemma windowFlatten_length (g : Grid3) (K S i j : ℕ) :
    (windowFlatten g K S i j).length = K * (K * g.d3) := by
  rw [windowFlatten_eq]
  simp

lemma listNorm_map_range (n : ℕ) (f : ℕ → ℝ) :
    listNorm ((List.range n).map f) = Real.sqrt (∑ k in Finset.range n, f k ^ 2) := by
  unfold listNorm
  rw [List.map_map, sum_map_range]
  rfl

lemma sum_sq_nonneg (n : ℕ) (f : ℕ → ℝ) : 0 ≤ ∑ k in Finset.range n, f k ^ 2 :=
  Finset.sum_nonneg (fun k _ => sq_nonneg (f k))

lemma listNorm_range_eq_zero_iff (n : ℕ) (f : ℕ → ℝ) :
    listNorm ((List.range n).map f) = 0 ↔ ∀ k < n, f k = 0 := by
  rw [listNorm_map_range, Real.sqrt_eq_zero (sum_sq_nonneg n f)]
  rw [Finset.sum_eq_zero_iff_of_nonneg (fun k _ => sq_nonneg (f k))]
  constructor
  · intro h k hk
    exact sq_eq_zero_iff.mp (h k (Finset.mem_range.mpr hk))
  · intro h k hk
    rw [h k (Finset.mem_range.mp hk)]
    ring

/-! ### Rounding lemmas (`np.around` at 5 decimals) -/

lemma roundHalfEven_abs_le (x : ℝ) : |(roundHalfEven x : ℝ) - x| ≤ 1 / 2 := by
  unfold roundHalfEven
  split_ifs with h he
  · have h2 : x - ⌊x⌋ = 1 / 2 := by rw [Int.self_sub_floor]; exact h
    have h3 : (⌊x⌋ : ℝ) - x = -(1 / 2) := by linarith
    rw [h3, abs_neg, abs_of_nonneg (by norm_num : (0 : ℝ) ≤ 1 / 2)]
  · have h2 : x - ⌊x⌋ = 1 / 2 := by rw [Int.self_sub_floor]; exact h
    have h3 : ((⌊x⌋ + 1 : ℤ) : ℝ) - x = 1 / 2 := by push_cast; linarith
    rw [h3, abs_of_nonneg (by norm_num : (0 : ℝ) ≤ 1 / 2)]
  · rw [abs_sub_comm]
    exact abs_sub_round x

lemma roundHalfEven_intCast (z : ℤ) : roundHalfEven (z : ℝ) = z := by
  unfold roundHalfEven
  rw [if_neg (by rw [Int.fract_intCast]; norm_num), round_intCast]

lemma round5_abs_le (x : ℝ) : |round5 x - x| ≤ 1 / 200000 := by
  unfold round5
  have h1 : (roundHalfEven (x * 100000) : ℝ) / 100000 - x
      = ((roundHalfEven (x * 100000) : ℝ) - x * 100000) / 100000 := by ring
  rw [h1, abs_div, abs_of_pos (by norm_num : (0 : ℝ) < 100000)]
  have h2 := roundHalfEven_abs_le (x * 100000)
  rw [div_le_iff₀ (by norm_num : (0 : ℝ) < 100000)]
  linarith

/-- A five-decimal value is rational, so it never equals the top bin edge
`π - π/8`. -/
lemma round5_ne_top (x : ℝ) : round5 x ≠ π - π / 8 := by
  unfold round5
  intro h
  have h2 : π = 8 * ((roundHalfEven (x * 100000) : ℤ) : ℝ) / 700000 := by
    field_simp at h ⊢
    linarith
  exact irrational_pi ⟨(8 * (roundHalfEven (x * 100000) : ℤ) : ℚ) / 700000, by
    push_cast
    linarith⟩

lemma round5_idem (x : ℝ) : round5 (round5 x) = round5 x := by
  unfold round5
  rw [div_mul_cancel₀ _ (by norm_num : (100000 : ℝ) ≠ 0), roundHalfEven_intCast]

/-! ### Bin edge lemmas -/

lemma linspace_length (a b : ℝ) (n : ℕ) : (linspace a b n).length = n := by
  unfold linspace
  rw [List.length_map, List.length_range]

lemma linspace_getD (a b : ℝ) {n k : ℕ} (h : k < n) :
    (linspace a b n).getD k 0 = a + k * ((b - a) / ((n : ℝ) - 1)) := by
  unfold linspace
  exact getD_map_range _ h

/-- The histogram-bin indicator functions over `B` evenly spaced bins of width
`s` starting at `a` (last bin right-closed) sum, at any point `v` other than
the top edge, to the indicator of the half-open interval `[a, a + B·s)`. -/
lemma sum_bin_indicator (B : ℕ) (hB : 0 < B) (a s : ℝ) (hs : 0 < s) (v w : ℝ)
    (hv : v ≠ a + B * s) :
    (∑ k in Finset.range B,
        if a + (k : ℝ) * s ≤ v ∧
            (if k + 1 = B then v ≤ a + ((k + 1 : ℕ) : ℝ) * s
             else v < a + ((k + 1 : ℕ) : ℝ) * s) then w
        else 0) =
      if a ≤ v ∧ v < a + (B : ℝ) * s then w else 0 := by
  have key : ∀ k ∈ Finset.range B,
      (if a + (k : ℝ) * s ≤ v ∧
          (if k + 1 = B then v ≤ a + ((k + 1 : ℕ) : ℝ) * s
           else v < a + ((k + 1 : ℕ) : ℝ) * s) then w
       else 0) =
      ((if a + (k : ℝ) * s ≤ v then w else 0)
        - (if a + ((k + 1 : ℕ) : ℝ) * s ≤ v then w else 0))
      + (if k = B - 1 then
          ((if a + (B : ℝ) * s ≤ v then w else 0)
            - (if a + (B : ℝ) * s < v then w else 0))
        else 0) := by
    intro k hk
    have hkB : k < B := Finset.mem_range.mp hk
    have hstep : a + (k : ℝ) * s ≤ a + ((k + 1 : ℕ) : ℝ) * s := by
      push_cast
      nlinarith
    rw [ite_and]
    by_cases hlast : k + 1 = B
    · subst hlast
      split_ifs <;> first | ring1 | linarith | (exfalso; omega)
    · split_ifs <;> first | ring1 | linarith | (exfalso; omega)
  rw [Finset.sum_congr rfl key, Finset.sum_add_distrib,
    Finset.sum_range_sub' (fun t : ℕ => if a + (t : ℝ) * s ≤ v then w else 0) B,
    Finset.sum_ite_eq' (Finset.range B) (B - 1)
      (fun _ => (if a + (B : ℝ) * s ≤ v then w else 0)
        - (if a + (B : ℝ) * s < v then w else 0))]
  rw [if_pos (Finset.mem_range.mpr (Nat.sub_lt hB Nat.one_pos))]
  simp only [Nat.cast_zero, zero_mul, add_zero]
  have hBs : a < a + (B : ℝ) * s := by
    have h1 : (1 : ℝ) ≤ B := by exact_mod_cast hB
    nlinarith
  by_cases hA : a ≤ v
  · by_cases hFB : a + (B : ℝ) * s ≤ v
    · have hG : a + (B : ℝ) * s < v := lt_of_le_of_ne hFB (Ne.symm hv)
      rw [if_pos hA, if_pos hFB, if_pos hG,
        if_neg (by rintro ⟨h1', h2'⟩; linarith)]
      ring
    · push_neg at hFB
      rw [if_pos hA, if_neg (by linarith : ¬a + (B : ℝ) * s ≤ v),
        if_neg (by linarith : ¬a + (B : ℝ) * s < v), if_pos ⟨hA, hFB⟩]
      ring
  · push_neg at hA
    rw [if_neg (by linarith : ¬a ≤ v), if_neg (by linarith : ¬a + (B : ℝ) * s ≤ v),
      if_neg (by linarith : ¬a + (B : ℝ) * s < v),
      if_neg (by rintro ⟨h1', h2'⟩; linarith)]
    ring

lemma sum_comm_list (l : List (ℝ × ℝ)) (n : ℕ) (f : ℕ → (ℝ × ℝ) → ℝ) :
    (∑ k in Finset.range n, (l.map (f k)).sum) =
      (l.map (fun p => ∑ k in Finset.range n, f k p)).sum := by
  induction l with
  | nil => simp
  | cons p ps ih =>
    simp only [List.map_cons, List.sum_cons]
    rw [Finset.sum_add_distrib, ih]

/-- Total weight collected by all bins of `histogramW` over `linspace` edges:
when no value sits exactly on the top edge, it is the weight of the values in
the half-open span `[a, b)` of the edges. -/
lemma histogramW_sum (pixels : List (ℝ × ℝ)) (B : ℕ) (hB : 0 < B) (a b : ℝ)
    (hab : a < b) (hnot : ∀ p ∈ pixels, p.2 ≠ b) :
    (histogramW pixels (linspace a b (B + 1))).sum =
      (pixels.map (fun p => if a ≤ p.2 ∧ p.2 < b then p.1 else 0)).sum := by
  have hBR : (0 : ℝ) < B := by exact_mod_cast hB
  have hB1 : ((B + 1 : ℕ) : ℝ) - 1 = (B : ℝ) := by push_cast; ring
  have htop : a + (B : ℝ) * ((b - a) / (((B + 1 : ℕ) : ℝ) - 1)) = b := by
    rw [hB1]
    field_simp
  unfold histogramW
  simp only [linspace_length, Nat.add_sub_cancel]
  rw [sum_map_range]
  have hmid := sum_comm_list pixels B (fun k p =>
    if (linspace a b (B + 1)).getD k 0 ≤ p.2 ∧
        (if k + 2 = B + 1 then p.2 ≤ (linspace a b (B + 1)).getD (k + 1) 0
         else p.2 < (linspace a b (B + 1)).getD (k + 1) 0) then p.1 else 0)
  rw [hmid]
  apply congrArg List.sum
  apply List.map_congr_left
  intro p hp
  have hcongr : ∀ k ∈ Finset.range B,
      (if (linspace a b (B + 1)).getD k 0 ≤ p.2 ∧
          (if k + 2 = B + 1 then p.2 ≤ (linspace a b (B + 1)).getD (k + 1) 0
           else p.2 < (linspace a b (B + 1)).getD (k + 1) 0) then p.1 else 0) =
      (if a + (k : ℝ) * ((b - a) / (((B + 1 : ℕ) : ℝ) - 1)) ≤ p.2 ∧
          (if k + 1 = B then
            p.2 ≤ a + ((k + 1 : ℕ) : ℝ) * ((b - a) / (((B + 1 : ℕ) : ℝ) - 1))
           else
            p.2 < a + ((k + 1 : ℕ) : ℝ) * ((b - a) / (((B + 1 : ℕ) : ℝ) - 1)))
        then p.1 else 0) := by
    intro k hk
    have hkB : k < B := Finset.mem_range.mp hk
    rw [linspace_getD a b (by omega : k < B + 1),
      linspace_getD a b (by omega : k + 1 < B + 1)]
    simp only [show (k + 2 = B + 1) ↔ (k + 1 = B) from by omega]
  rw [Finset.sum_congr rfl hcongr]
  have hs : 0 < (b - a) / (((B + 1 : ℕ) : ℝ) - 1) := by
    rw [hB1]
    exact div_pos (by linarith) hBR
  have hv : p.2 ≠ a + (B : ℝ) * ((b - a) / (((B + 1 : ℕ) : ℝ) - 1)) := by
    rw [htop]
    exact hnot p hp
  rw [sum_bin_indicator B hB a ((b - a) / (((B + 1 : ℕ) : ℝ) - 1)) hs p.2 p.1 hv]
  rw [htop]

/-- `create_histogram` collects exactly the magnitudes of the pixels whose
rounded orientation lies in `[-π-π/8, π-π/8)`. -/
lemma create_histogram_sum (pixels : List (ℝ × ℝ)) (B : ℕ) (hB : 0 < B) :
    ((create_histogram pixels B).1).sum =
      (pixels.map (fun p =>
        if -π - π / 8 ≤ round5 p.2 ∧ round5 p.2 < π - π / 8 then p.1 else 0)).sum := by
  unfold create_histogram
  rw [histogramW_sum _ B hB _ _ (by have := Real.pi_pos; linarith)
    (by
      intro q hq
      rw [List.mem_map] at hq
      obtain ⟨p, _, hpq⟩ := hq
      rw [← hpq]
      exact round5_ne_top p.2)]
  rw [List.map_map]
  rfl

/-! ### Unfolding lemmas for the gradient stage -/

lemma valZ_def (img : Img2) (r c : ℤ) :
    img.valZ r c =
      if 0 ≤ r ∧ r < (img.rows : ℤ) ∧ 0 ≤ c ∧ c < (img.cols : ℤ) then
        img.val r.toNat c.toNat
      else 0 := rfl

lemma conv2dPad1_val (K : ℕ → ℕ → ℝ) (img : Img2) (i j : ℕ) :
    (conv2dPad1 K img).val i j =
      ∑ k in Finset.range 3, ∑ l in Finset.range 3,
        K k l * img.valZ ((i : ℤ) + k - 1) ((j : ℤ) + l - 1) := rfl

lemma crossCorrValid_val (K : ℕ → ℕ → ℝ) (img : Img2) (i j : ℕ) :
    (crossCorrValid K img).val i j =
      ∑ k in Finset.range 3, ∑ l in Finset.range 3,
        K k l * img.val (i + k) (j + l) := rfl

lemma zeroPad1_val (img : Img2) (r c : ℕ) :
    (zeroPad1 img).val r c =
      if 1 ≤ r ∧ r ≤ img.rows ∧ 1 ≤ c ∧ c ≤ img.cols then
        img.val (r - 1) (c - 1)
      else 0 := rfl

/-- Reading the original image through `valZ` at offset coordinates is the
same as reading the explicitly zero-padded image. -/
lemma valZ_eq_pad (img : Img2) (i j k l : ℕ) :
    img.valZ ((i : ℤ) + k - 1) ((j : ℤ) + l - 1) = (zeroPad1 img).val (i + k) (j + l) := by
  rw [valZ_def, zeroPad1_val]
  by_cases h1 : (0 : ℤ) ≤ (i : ℤ) + k - 1 ∧ (i : ℤ) + k - 1 < (img.rows : ℤ) ∧
      (0 : ℤ) ≤ (j : ℤ) + l - 1 ∧ (j : ℤ) + l - 1 < (img.cols : ℤ)
  · rw [if_pos h1, if_pos
      (show 1 ≤ i + k ∧ i + k ≤ img.rows ∧ 1 ≤ j + l ∧ j + l ≤ img.cols by omega)]
    congr 1 <;> omega
  · rw [if_neg h1, if_neg
      (show ¬(1 ≤ i + k ∧ i + k ≤ img.rows ∧ 1 ≤ j + l ∧ j + l ≤ img.cols) by omega)]

/-- The implicitly padded cross-correlation equals the valid cross-correlation
of the explicitly zero-padded image, pixel by pixel. -/
lemma conv2dPad1_eq_padded (K : ℕ → ℕ → ℝ) (img : Img2) (i j : ℕ) :
    (conv2dPad1 K img).val i j = (crossCorrValid K (zeroPad1 img)).val i j := by
  rw [conv2dPad1_val, crossCorrValid_val]
  apply Finset.sum_congr rfl
  intro k _
  apply Finset.sum_congr rfl
  intro l _
  rw [valZ_eq_pad]

/-- Everything C3/C4 assert about `compute_image_gradients`, with no size
restriction: shapes are preserved and each output is the Sobel
cross-correlation of the zero-padded image. -/
lemma gradients_spec (img : Img2) :
    (compute_image_gradients img).1.rows = img.rows ∧
    (compute_image_gradients img).1.cols = img.cols ∧
    (compute_image_gradients img).2.rows = img.rows ∧
    (compute_image_gradients img).2.cols = img.cols ∧
    (∀ i j : ℕ, i < img.rows → j < img.cols →
      (compute_image_gradients img).1.val i j =
        (crossCorrValid SOBEL_X_KERNEL (zeroPad1 img)).val i j ∧
      (compute_image_gradients img).2.val i j =
        (crossCorrValid SOBEL_Y_KERNEL (zeroPad1 img)).val i j) :=
  ⟨rfl, rfl, rfl, rfl, fun i j _ _ =>
    ⟨conv2dPad1_eq_padded SOBEL_X_KERNEL img i j,
     conv2dPad1_eq_padded SOBEL_Y_KERNEL img i j⟩⟩

/-- C3: for every input image of at least 3×3, `compute_image_gradients`
(`estimate_gradients`) returns two arrays `Ix`, `Iy` of exactly the input's
shape, equal to the convolution (PyTorch `conv2d` semantics) of the image
with the fixed 3×3 Sobel kernels `Kx` and `Ky` respectively, using 1-pixel
zero padding on each side, stride 1, and no bias. -/
theorem C3_gradients_are_sobel_convolution (img : Img2)
    (h1 : 3 ≤ img.rows) (h2 : 3 ≤ img.cols) :
    (compute_image_gradients img).1.rows = img.rows ∧
    (compute_image_gradients img).1.cols = img.cols ∧
    (compute_image_gradients img).2.rows = img.rows ∧
    (compute_image_gradients img).2.cols = img.cols ∧
    (∀ i j : ℕ, i < img.rows → j < img.cols →
      (compute_image_gradients img).1.val i j =
        (crossCorrValid SOBEL_X_KERNEL (zeroPad1 img)).val i j ∧
      (compute_image_gradients img).2.val i j =
        (crossCorrValid SOBEL_Y_KERNEL (zeroPad1 img)).val i j) :=
  gradients_spec img

/-- Witness for C3 at a concrete 3×3 image. -/
theorem C3_gradients_are_sobel_convolution_witness :
    3 ≤ (⟨3, 3, fun _ _ => 1⟩ : Img2).rows ∧ 3 ≤ (⟨3, 3, fun _ _ => 1⟩ : Img2).cols ∧
    ((compute_image_gradients ⟨3, 3, fun _ _ => 1⟩).1.rows = 3 ∧
     (compute_image_gradients ⟨3, 3, fun _ _ => 1⟩).1.cols = 3 ∧
     (compute_image_gradients ⟨3, 3, fun _ _ => 1⟩).2.rows = 3 ∧
     (compute_image_gradients ⟨3, 3, fun _ _ => 1⟩).2.cols = 3 ∧
     (∀ i j : ℕ, i < 3 → j < 3 →
       (compute_image_gradients ⟨3, 3, fun _ _ => 1⟩).1.val i j =
         (crossCorrValid SOBEL_X_KERNEL (zeroPad1 ⟨3, 3, fun _ _ => 1⟩)).val i j ∧
       (compute_image_gradients ⟨3, 3, fun _ _ => 1⟩).2.val i j =
         (crossCorrValid SOBEL_Y_KERNEL (zeroPad1 ⟨3, 3, fun _ _ => 1⟩)).val i j)) :=
  ⟨by decide, by decide,
   C3_gradients_are_sobel_convolution ⟨3, 3, fun _ _ => 1⟩ (by decide) (by decide)⟩

/-- C4 counterexample: on a 1×1 image — fewer than 3 rows and columns — the
code does not fail at all: the padded convolution is defined and returns the
1×1 zero gradient arrays (the claimed `InvalidShapeError` does not exist in
the source, which performs no shape validation). -/
theorem C4_counterexample :
    (⟨1, 1, fun _ _ => 5⟩ : Img2).rows < 3 ∧
    (compute_image_gradients ⟨1, 1, fun _ _ => 5⟩).1.rows = 1 ∧
    (compute_image_gradients ⟨1, 1, fun _ _ => 5⟩).1.cols = 1 ∧
    (compute_image_gradients ⟨1, 1, fun _ _ => 5⟩).1.val 0 0 = 0 ∧
    (compute_image_gradients ⟨1, 1, fun _ _ => 5⟩).2.val 0 0 = 0 := by
  refine ⟨by decide, rfl, rfl, ?_, ?_⟩ <;>
    norm_num [compute_image_gradients, conv2dPad1_val, Img2.valZ,
      Finset.sum_range_succ, Finset.sum_range_zero, SOBEL_X_KERNEL, SOBEL_Y_KERNEL]

/-- C4 (amended): `compute_image_gradients` performs no input-size validation
and never fails: even when the input has fewer than 3 rows or columns, it
returns gradient arrays of the input's shape, computed as the zero-padded
Sobel cross-correlation (padding makes the padded image at least 3×3). -/
theorem C4_no_shape_failure (img : Img2) (h : img.rows < 3 ∨ img.cols < 3) :
    (compute_image_gradients img).1.rows = img.rows ∧
    (compute_image_gradients img).1.cols = img.cols ∧
    (compute_image_gradients img).2.rows = img.rows ∧
    (compute_image_gradients img).2.cols = img.cols ∧
    (∀ i j : ℕ, i < img.rows → j < img.cols →
      (compute_image_gradients img).1.val i j =
        (crossCorrValid SOBEL_X_KERNEL (zeroPad1 img)).val i j ∧
      (compute_image_gradients img).2.val i j =
        (crossCorrValid SOBEL_Y_KERNEL (zeroPad1 img)).val i j) :=
  gradients_spec img

/-- Witness for the amended C4 at a concrete 1×1 image. -/
theorem C4_no_shape_failure_witness :
    ((⟨1, 1, fun _ _ => 5⟩ : Img2).rows < 3 ∨ (⟨1, 1, fun _ _ => 5⟩ : Img2).cols < 3) ∧
    ((compute_image_gradients ⟨1, 1, fun _ _ => 5⟩).1.rows = 1 ∧
     (compute_image_gradients ⟨1, 1, fun _ _ => 5⟩).1.cols = 1 ∧
     (compute_image_gradients ⟨1, 1, fun _ _ => 5⟩).2.rows = 1 ∧
     (compute_image_gradients ⟨1, 1, fun _ _ => 5⟩).2.cols = 1 ∧
     (∀ i j : ℕ, i < 1 → j < 1 →
       (compute_image_gradients ⟨1, 1, fun _ _ => 5⟩).1.val i j =
         (crossCorrValid SOBEL_X_KERNEL (zeroPad1 ⟨1, 1, fun _ _ => 5⟩)).val i j ∧
       (compute_image_gradients ⟨1, 1, fun _ _ => 5⟩).2.val i j =
         (crossCorrValid SOBEL_Y_KERNEL (zeroPad1 ⟨1, 1, fun _ _ => 5⟩)).val i j)) :=
  ⟨by decide, C4_no_shape_failure ⟨1, 1, fun _ _ => 5⟩ (by decide)⟩

lemma cmo_orient_val (img : Img2) (i j : ℕ) :
    (compute_magnitudes_and_orientations img).1.val i j =
      arctan2 ((compute_image_gradients img).2.val i j)
        ((compute_image_gradients img).1.val i j) := rfl

lemma cmo_mag_val (img : Img2) (i j : ℕ) :
    (compute_magnitudes_and_orientations img).2.val i j =
      (compute_image_gradients img).1.val i j ^ 2 +
        (compute_image_gradients img).2.val i j ^ 2 := rfl

/-- C8: `compute_magnitudes_and_orientations` returns the squared magnitude
`Ix² + Iy²` (never square-rooted, hence nonnegative) and the orientation
`atan2(Iy, Ix)`, whose value always lies in `(-π, π]`, with `atan2 0 0 = 0`. -/
theorem C8_magnitude_orientation (img : Img2) (i j : ℕ) :
    (compute_magnitudes_and_orientations img).2.val i j =
      (compute_image_gradients img).1.val i j ^ 2 +
        (compute_image_gradients img).2.val i j ^ 2 ∧
    0 ≤ (compute_magnitudes_and_orientations img).2.val i j ∧
    (compute_magnitudes_and_orientations img).1.val i j =
      arctan2 ((compute_image_gradients img).2.val i j)
        ((compute_image_gradients img).1.val i j) ∧
    (compute_magnitudes_and_orientations img).1.val i j ∈ Set.Ioc (-π) π ∧
    arctan2 0 0 = 0 := by
  refine ⟨rfl, ?_, rfl, ?_, ?_⟩
  · rw [cmo_mag_val]
    positivity
  · rw [cmo_orient_val]
    exact Complex.arg_mem_Ioc _
  · show Complex.arg ⟨0, 0⟩ = 0
    rw [show (⟨0, 0⟩ : ℂ) = 0 from by simp [Complex.ext_iff], Complex.arg_zero]

/-- C1 counterexample: a one-pixel cell with magnitude 1 whose orientation is
`π` — a value `atan2` really produces, e.g. `atan2(0, -1) = π`.  `π` exceeds
the top bin edge `π - π/8`, so the histogram drops it: the bin-weight sum is
`0`, not the cell's total magnitude `1`. -/
theorem C1_counterexample :
    arctan2 0 (-1) = π ∧
    ((create_histogram [((1 : ℝ), arctan2 0 (-1))] 8).1).sum = 0 ∧
    ([((1 : ℝ), arctan2 0 (-1))].map Prod.fst).sum = 1 ∧
    ((create_histogram [((1 : ℝ), arctan2 0 (-1))] 8).1).sum ≠
      ([((1 : ℝ), arctan2 0 (-1))].map Prod.fst).sum := by
  have harg : arctan2 0 (-1) = π := by
    rw [show arctan2 0 (-1) = Complex.arg ⟨-1, 0⟩ from rfl,
      show (⟨-1, 0⟩ : ℂ) = -1 from by simp [Complex.ext_iff], Complex.arg_neg_one]
  have hsum : ((create_histogram [((1 : ℝ), arctan2 0 (-1))] 8).1).sum = 0 := by
    rw [create_histogram_sum _ 8 (by norm_num)]
    have habs := round5_abs_le π
    have hlow : π - 1 / 200000 ≤ round5 π := by
      have := abs_le.mp habs
      linarith [this.1]
    have hpi := Real.pi_gt_three
    have hnlt : ¬round5 (arctan2 0 (-1)) < π - π / 8 := by
      rw [harg]
      linarith
    rw [List.map_cons, List.map_nil]
    rw [if_neg (fun hc => hnlt hc.2)]
    simp
  refine ⟨harg, hsum, by simp, ?_⟩
  rw [hsum]
  simp

/-- C1 (amended): the sum of the histogram bin weights returned by
`create_histogram` equals the sum of the magnitudes of the pixels whose
rounded orientation falls within `[-π-π/8, π-π/8)`.  Orientations in
`(π-π/8, π]` — which `atan2` does produce — fall above the top bin edge and
are dropped, so the bin-weight sum can be strictly less than the cell's total
magnitude. -/
theorem C1_bin_sum_is_in_range_weight (pixels : List (ℝ × ℝ)) (B : ℕ) (hB : 0 < B) :
    ((create_histogram pixels B).1).sum =
      (pixels.map (fun p =>
        if -π - π / 8 ≤ round5 p.2 ∧ round5 p.2 < π - π / 8 then p.1 else 0)).sum :=
  create_histogram_sum pixels B hB

/-- Witness for the amended C1 at a concrete one-pixel cell. -/
theorem C1_bin_sum_is_in_range_weight_witness :
    0 < 8 ∧
    ((create_histogram [((2 : ℝ), 0)] 8).1).sum =
      ([((2 : ℝ), 0)].map (fun p =>
        if -π - π / 8 ≤ round5 p.2 ∧ round5 p.2 < π - π / 8 then p.1 else 0)).sum :=
  ⟨by decide, C1_bin_sum_is_in_range_weight [((2 : ℝ), 0)] 8 (by decide)⟩

/-- C7: the bin edges of `create_histogram` are the `B+1` evenly spaced
values from `-π-π/8` to `π-π/8` (spacing `2π/B`), the identical edge list is
produced on every call (hence for every cell of one
`create_image_histograms` run), and the histogram bins the orientations
rounded to five decimals: pre-rounding the orientations changes nothing. -/
theorem C7_bin_edges_and_rounding (pixels pixels2 : List (ℝ × ℝ)) (B : ℕ) (hB : 0 < B) :
    ((create_histogram pixels B).2).length = B + 1 ∧
    (∀ k : ℕ, k ≤ B → ((create_histogram pixels B).2).getD k 0 =
      (-π - π / 8) + (k : ℝ) * (2 * π / B)) ∧
    ((create_histogram pixels B).2).getD 0 0 = -π - π / 8 ∧
    ((create_histogram pixels B).2).getD B 0 = π - π / 8 ∧
    (create_histogram pixels B).2 = (create_histogram pixels2 B).2 ∧
    (create_histogram pixels B).1 =
      (create_histogram (pixels.map (fun p => (p.1, round5 p.2))) B).1 := by
  have hBne : (B : ℝ) ≠ 0 := by
    have : (0 : ℝ) < B := by exact_mod_cast hB
    linarith
  have hticks : (create_histogram pixels B).2 =
      linspace (-π - π / 8) (π - π / 8) (B + 1) := rfl
  refine ⟨?_, ?_, ?_, ?_, rfl, ?_⟩
  · rw [hticks, linspace_length]
  · intro k hk
    rw [hticks, linspace_getD _ _ (by omega)]
    push_cast
    ring
  · rw [hticks, linspace_getD _ _ (by omega)]
    push_cast
    ring
  · rw [hticks, linspace_getD _ _ (by omega)]
    push_cast
    field_simp
    ring
  · show histogramW (pixels.map (fun p => (p.1, round5 p.2)))
        (linspace (-π - π / 8) (π - π / 8) (B + 1)) =
      histogramW ((pixels.map (fun p => (p.1, round5 p.2))).map
          (fun p => (p.1, round5 p.2)))
        (linspace (-π - π / 8) (π - π / 8) (B + 1))
    rw [List.map_map,
      show ((fun p : ℝ × ℝ => (p.1, round5 p.2)) ∘ (fun p : ℝ × ℝ => (p.1, round5 p.2)))
          = (fun p : ℝ × ℝ => (p.1, round5 p.2)) from
        funext (fun p => by simp [Function.comp, round5_idem])]

/-- Witness for C7 at two concrete cells and the default bin count. -/
theorem C7_bin_edges_and_rounding_witness :
    0 < 8 ∧
    (((create_histogram ([] : List (ℝ × ℝ)) 8).2).length = 8 + 1 ∧
     (∀ k : ℕ, k ≤ 8 → ((create_histogram ([] : List (ℝ × ℝ)) 8).2).getD k 0 =
       (-π - π / 8) + (k : ℝ) * (2 * π / 8)) ∧
     ((create_histogram ([] : List (ℝ × ℝ)) 8).2).getD 0 0 = -π - π / 8 ∧
     ((create_histogram ([] : List (ℝ × ℝ)) 8).2).getD 8 0 = π - π / 8 ∧
     (create_histogram ([] : List (ℝ × ℝ)) 8).2 = (create_histogram [((1 : ℝ), 2)] 8).2 ∧
     (create_histogram ([] : List (ℝ × ℝ)) 8).1 =
       (create_histogram (([] : List (ℝ × ℝ)).map (fun p => (p.1, round5 p.2))) 8).1) :=
  ⟨by decide, C7_bin_edges_and_rounding [] [((1 : ℝ), 2)] 8 (by decide)⟩

/-! ### Unfolding lemmas for the descriptor stage -/

lemma createDescriptorGrid_d1 (g : Grid3) (K S : ℕ) :
    (createDescriptorGrid g K S).d1 = (g.d1 + 1 - K) / S := rfl

lemma createDescriptorGrid_d2 (g : Grid3) (K S : ℕ) :
    (createDescriptorGrid g K S).d2 = (g.d2 + 1 - K) / S := rfl

lemma createDescriptorGrid_d3 (g : Grid3) (K S : ℕ) :
    (createDescriptorGrid g K S).d3 = g.d3 * K ^ 2 := rfl

lemma createDescriptorGrid_val (g : Grid3) (K S i j l : ℕ) :
    (createDescriptorGrid g K S).val i j l =
      if i < (g.d1 + 1 - K) / S ∧ j < (g.d2 + 1 - K) / S ∧ l < g.d3 * K ^ 2 then
        (if ¬listNorm (windowFlatten g K S i j) = 0 then
          ((windowFlatten g K S i j).map
            (fun x => x / listNorm (windowFlatten g K S i j))).getD l 0
         else (windowFlatten g K S i j).getD l 0)
      else 0 := rfl

lemma getD_of_ge (xs : List ℝ) (l : ℕ) (h : xs.length ≤ l) : xs.getD l 0 = 0 := by
  rw [List.getD_eq_getElem?_getD, List.getElem?_eq_none h]
  rfl

lemma windowFlatten_length' (g : Grid3) (K S i j : ℕ) :
    (windowFlatten g K S i j).length = g.d3 * K ^ 2 := by
  rw [windowFlatten_length]
  ring

/-- In-range entries of the descriptor grid: the flattened window entry,
divided by the window's norm when that norm is nonzero. -/
lemma descVal_in_range (g : Grid3) (K S i j l : ℕ)
    (hi : i < (g.d1 + 1 - K) / S) (hj : j < (g.d2 + 1 - K) / S)
    (hl : l < g.d3 * K ^ 2) :
    (createDescriptorGrid g K S).val i j l =
      if listNorm (windowFlatten g K S i j) = 0 then (windowFlatten g K S i j).getD l 0
      else (windowFlatten g K S i j).getD l 0 / listNorm (windowFlatten g K S i j) := by
  rw [createDescriptorGrid_val, if_pos ⟨hi, hj, hl⟩]
  by_cases hn : listNorm (windowFlatten g K S i j) = 0
  · rw [if_neg (not_not_intro hn), if_pos hn]
  · rw [if_pos hn, if_neg hn,
      getD_map_of_lt _ (by rw [windowFlatten_length']; exact hl)]

lemma listNorm_windowFlatten (g : Grid3) (K S i j : ℕ) :
    listNorm (windowFlatten g K S i j) =
      Real.sqrt (∑ l in Finset.range (K * (K * g.d3)),
        ((windowFlatten g K S i j).getD l 0) ^ 2) := by
  rw [windowFlatten_eq, listNorm_map_range]
  congr 1
  apply Finset.sum_congr rfl
  intro l hl
  rw [getD_map_range _ (Finset.mem_range.mp hl)]

lemma windowFlatten_norm_zero (g : Grid3) (K S i j : ℕ)
    (hn : listNorm (windowFlatten g K S i j) = 0) :
    ∀ l : ℕ, (windowFlatten g K S i j).getD l 0 = 0 := by
  intro l
  rcases lt_or_ge l (K * (K * g.d3)) with hl | hl
  · rw [windowFlatten_eq] at hn ⊢
    rw [getD_map_range _ hl]
    exact (listNorm_range_eq_zero_iff _ _).mp hn l hl
  · exact getD_of_ge _ l (by rw [windowFlatten_length]; exact hl)

/-- The validation path of `create_descriptor` succeeds exactly under the
hypotheses of the claims. -/
lemma create_descriptor_ok (g : Grid3) (K S : ℕ)
    (hK1 : K ≤ g.d1) (hK2 : K ≤ g.d2) (hS : 0 < S) (h1 : 0 < g.d1) (h2 : 0 < g.d2) :
    create_descriptor g K S = .ok (createDescriptorGrid g K S) := by
  unfold create_descriptor
  rw [if_neg (by omega), if_neg (not_not_intro ⟨hK1, hK2⟩), if_neg (by omega),
    if_neg (by omega)]

/-- C5: under a valid block configuration, every output row of
`create_descriptor` that is not all zero has Euclidean norm 1, and a block
whose gathered (flattened) window is all zero yields an all-zero output row
unchanged — the zero-norm case is defined behaviour, not an error. -/
theorem C5_block_normalization (g : Grid3) (K S i j : ℕ)
    (hK1 : K ≤ g.d1) (hK2 : K ≤ g.d2) (hS : 0 < S) (h1 : 0 < g.d1) (h2 : 0 < g.d2)
    (hi : i < (g.d1 + 1 - K) / S) (hj : j < (g.d2 + 1 - K) / S) :
    create_descriptor g K S = .ok (createDescriptorGrid g K S) ∧
    ((∃ l : ℕ, l < g.d3 * K ^ 2 ∧ (createDescriptorGrid g K S).val i j l ≠ 0) →
      listNorm ((List.range (g.d3 * K ^ 2)).map
        (fun l => (createDescriptorGrid g K S).val i j l)) = 1) ∧
    ((∀ l : ℕ, l < g.d3 * K ^ 2 → (windowFlatten g K S i j).getD l 0 = 0) →
      ∀ l : ℕ, (createDescriptorGrid g K S).val i j l = 0) := by
  refine ⟨create_descriptor_ok g K S hK1 hK2 hS h1 h2, ?_, ?_⟩
  · rintro ⟨l0, hl0, hval0⟩
    by_cases hn : listNorm (windowFlatten g K S i j) = 0
    · exfalso
      apply hval0
      rw [descVal_in_range g K S i j l0 hi hj hl0, if_pos hn]
      exact windowFlatten_norm_zero g K S i j hn l0
    · rw [listNorm_map_range]
      have hvals : ∀ l ∈ Finset.range (g.d3 * K ^ 2),
          ((createDescriptorGrid g K S).val i j l) ^ 2 =
            ((windowFlatten g K S i j).getD l 0 /
              listNorm (windowFlatten g K S i j)) ^ 2 := by
        intro l hl
        rw [descVal_in_range g K S i j l hi hj (Finset.mem_range.mp hl), if_neg hn]
      rw [Finset.sum_congr rfl hvals]
      simp only [div_pow]
      rw [← Finset.sum_div]
      have hnn0 : 0 ≤ ∑ l in Finset.range (K * (K * g.d3)),
          ((windowFlatten g K S i j).getD l 0) ^ 2 :=
        Finset.sum_nonneg (fun l _ => sq_nonneg _)
      have hnsq : listNorm (windowFlatten g K S i j) ^ 2 =
          ∑ l in Finset.range (K * (K * g.d3)),
            ((windowFlatten g K S i j).getD l 0) ^ 2 := by
        rw [listNorm_windowFlatten]
        exact Real.sq_sqrt hnn0
      rw [show g.d3 * K ^ 2 = K * (K * g.d3) from by ring, ← hnsq,
        div_self (pow_ne_zero 2 hn), Real.sqrt_one]
  · intro hzero l
    have hn : listNorm (windowFlatten g K S i j) = 0 := by
      rw [listNorm_windowFlatten, Finset.sum_eq_zero, Real.sqrt_zero]
      intro t ht
      rw [hzero t (by
        rw [show g.d3 * K ^ 2 = K * (K * g.d3) from by ring]
        exact Finset.mem_range.mp ht)]
      ring
    rcases lt_or_ge l (g.d3 * K ^ 2) with hl | hl
    · rw [descVal_in_range g K S i j l hi hj hl, if_pos hn]
      exact hzero l hl
    · rw [createDescriptorGrid_val, if_neg (by rintro ⟨-, -, hc⟩; omega)]

/-- Witness for C5 at a concrete 2×2×1 all-ones histogram grid, block size 2,
step 1. -/
theorem C5_block_normalization_witness :
    (2 ≤ (⟨2, 2, 1, fun _ _ _ => 1⟩ : Grid3).d1 ∧
     2 ≤ (⟨2, 2, 1, fun _ _ _ => 1⟩ : Grid3).d2 ∧
     0 < 1 ∧ 0 < (⟨2, 2, 1, fun _ _ _ => 1⟩ : Grid3).d1 ∧
     0 < (⟨2, 2, 1, fun _ _ _ => 1⟩ : Grid3).d2 ∧
     0 < ((⟨2, 2, 1, fun _ _ _ => 1⟩ : Grid3).d1 + 1 - 2) / 1 ∧
     0 < ((⟨2, 2, 1, fun _ _ _ => 1⟩ : Grid3).d2 + 1 - 2) / 1) ∧
    (create_descriptor ⟨2, 2, 1, fun _ _ _ => 1⟩ 2 1 =
        .ok (createDescriptorGrid ⟨2, 2, 1, fun _ _ _ => 1⟩ 2 1) ∧
     ((∃ l : ℕ, l < (⟨2, 2, 1, fun _ _ _ => 1⟩ : Grid3).d3 * 2 ^ 2 ∧
         (createDescriptorGrid ⟨2, 2, 1, fun _ _ _ => 1⟩ 2 1).val 0 0 l ≠ 0) →
       listNorm ((List.range ((⟨2, 2, 1, fun _ _ _ => 1⟩ : Grid3).d3 * 2 ^ 2)).map
         (fun l => (createDescriptorGrid ⟨2, 2, 1, fun _ _ _ => 1⟩ 2 1).val 0 0 l)) = 1) ∧
     ((∀ l : ℕ, l < (⟨2, 2, 1, fun _ _ _ => 1⟩ : Grid3).d3 * 2 ^ 2 →
         (windowFlatten ⟨2, 2, 1, fun _ _ _ => 1⟩ 2 1 0 0).getD l 0 = 0) →
       ∀ l : ℕ, (createDescriptorGrid ⟨2, 2, 1, fun _ _ _ => 1⟩ 2 1).val 0 0 l = 0)) :=
  ⟨⟨by decide, by decide, by decide, by decide, by decide, by decide, by decide⟩,
   C5_block_normalization ⟨2, 2, 1, fun _ _ _ => 1⟩ 2 1 0 0
     (by decide) (by decide) (by decide) (by decide) (by decide) (by decide) (by decide)⟩

/-- C10: for a histogram grid with only nonnegative entries (as the pipeline
produces, the weights being squared magnitudes), every entry of the block
descriptor grid lies in `[0, 1]`. -/
theorem C10_descriptor_entries_in_unit_interval (g : Grid3) (K S : ℕ)
    (hnn : ∀ a b c : ℕ, 0 ≤ g.val a b c)
    (hK1 : K ≤ g.d1) (hK2 : K ≤ g.d2) (hS : 0 < S) (h1 : 0 < g.d1) (h2 : 0 < g.d2) :
    create_descriptor g K S = .ok (createDescriptorGrid g K S) ∧
    ∀ i j l : ℕ, 0 ≤ (createDescriptorGrid g K S).val i j l ∧
      (createDescriptorGrid g K S).val i j l ≤ 1 := by
  refine ⟨create_descriptor_ok g K S hK1 hK2 hS h1 h2, ?_⟩
  intro i j l
  by_cases hin : i < (g.d1 + 1 - K) / S ∧ j < (g.d2 + 1 - K) / S ∧ l < g.d3 * K ^ 2
  · obtain ⟨hi, hj, hl⟩ := hin
    have hWnn : ∀ t : ℕ, 0 ≤ (windowFlatten g K S i j).getD t 0 := by
      intro t
      rcases lt_or_ge t (K * (K * g.d3)) with ht | ht
      · rw [windowFlatten_eq, getD_map_range _ ht]
        exact hnn _ _ _
      · rw [getD_of_ge _ t (by rw [windowFlatten_length]; exact ht)]
    rw [descVal_in_range g K S i j l hi hj hl]
    by_cases hn : listNorm (windowFlatten g K S i j) = 0
    · rw [if_pos hn, windowFlatten_norm_zero g K S i j hn l]
      norm_num
    · rw [if_neg hn]
      have hnpos : 0 < listNorm (windowFlatten g K S i j) := by
        have h0 : 0 ≤ listNorm (windowFlatten g K S i j) := by
          rw [listNorm_windowFlatten]
          exact Real.sqrt_nonneg _
        exact lt_of_le_of_ne h0 (Ne.symm hn)
      constructor
      · exact div_nonneg (hWnn l) (le_of_lt hnpos)
      · rw [div_le_one hnpos]
        have hsq : ((windowFlatten g K S i j).getD l 0) ^ 2 ≤
            ∑ t in Finset.range (K * (K * g.d3)),
              ((windowFlatten g K S i j).getD t 0) ^ 2 := by
          refine Finset.single_le_sum
            (fun t _ => sq_nonneg ((windowFlatten g K S i j).getD t 0)) ?_
          exact Finset.mem_range.mpr (by
            rw [show K * (K * g.d3) = g.d3 * K ^ 2 from by ring]
            exact hl)
        calc (windowFlatten g K S i j).getD l 0
            = Real.sqrt (((windowFlatten g K S i j).getD l 0) ^ 2) :=
              (Real.sqrt_sq (hWnn l)).symm
          _ ≤ Real.sqrt (∑ t in Finset.range (K * (K * g.d3)),
                ((windowFlatten g K S i j).getD t 0) ^ 2) := Real.sqrt_le_sqrt hsq
          _ = listNorm (windowFlatten g K S i j) :=
              (listNorm_windowFlatten g K S i j).symm
  · rw [createDescriptorGrid_val, if_neg hin]
    norm_num

/-- Witness for C10 at a concrete 3×3×2 all-ones histogram grid. -/
theorem C10_descriptor_entries_in_unit_interval_witness :
    ((∀ a b c : ℕ, 0 ≤ (⟨3, 3, 2, fun _ _ _ => 1⟩ : Grid3).val a b c) ∧
     2 ≤ (⟨3, 3, 2, fun _ _ _ => 1⟩ : Grid3).d1 ∧
     2 ≤ (⟨3, 3, 2, fun _ _ _ => 1⟩ : Grid3).d2 ∧
     0 < 1 ∧ 0 < (⟨3, 3, 2, fun _ _ _ => 1⟩ : Grid3).d1 ∧
     0 < (⟨3, 3, 2, fun _ _ _ => 1⟩ : Grid3).d2) ∧
    (create_descriptor ⟨3, 3, 2, fun _ _ _ => 1⟩ 2 1 =
        .ok (createDescriptorGrid ⟨3, 3, 2, fun _ _ _ => 1⟩ 2 1) ∧
     ∀ i j l : ℕ, 0 ≤ (createDescriptorGrid ⟨3, 3, 2, fun _ _ _ => 1⟩ 2 1).val i j l ∧
       (createDescriptorGrid ⟨3, 3, 2, fun _ _ _ => 1⟩ 2 1).val i j l ≤ 1) :=
  ⟨⟨fun _ _ _ => zero_le_one, by decide, by decide, by decide, by decide, by decide⟩,
   C10_descriptor_entries_in_unit_interval ⟨3, 3, 2, fun _ _ _ => 1⟩ 2 1
     (fun _ _ _ => zero_le_one) (by decide) (by decide) (by decide) (by decide) (by decide)⟩

/-- C6 counterexample: on the all-ones 2×2×1 histogram grid with block size 2
and step 1, the descriptor entry at block (0,0), flat position 0 is `1/2`
(the L2-normalized value), not the flattened-window value `1`: the claim's
description of the entries omits the normalization. -/
theorem C6_counterexample :
    (createDescriptorGrid ⟨2, 2, 1, fun _ _ _ => 1⟩ 2 1).val 0 0 0 = 1 / 2 ∧
    (windowFlatten ⟨2, 2, 1, fun _ _ _ => 1⟩ 2 1 0 0).getD 0 0 = 1 ∧
    (1 : ℝ) / 2 ≠ 1 := by
  have hW : windowFlatten (⟨2, 2, 1, fun _ _ _ => 1⟩ : Grid3) 2 1 0 0 =
      [1, 1, 1, 1] := rfl
  have hnorm : listNorm (windowFlatten (⟨2, 2, 1, fun _ _ _ => 1⟩ : Grid3) 2 1 0 0) = 2 := by
    rw [hW]
    unfold listNorm
    simp only [List.map_cons, List.map_nil, List.sum_cons, List.sum_nil]
    rw [show ((1 : ℝ) ^ 2 + (1 ^ 2 + (1 ^ 2 + (1 ^ 2 + 0)))) = 2 ^ 2 from by norm_num]
    exact Real.sqrt_sq (by norm_num)
  refine ⟨?_, by rw [hW]; rfl, by norm_num⟩
  rw [descVal_in_range _ 2 1 0 0 0 (by decide) (by decide) (by decide),
    if_neg (by rw [hnorm]; norm_num), hnorm, hW]
  norm_num

/-- C6 (amended): with a nonempty grid and positive step,
`create_descriptor` fails with the block-config error exactly when
`¬(K ≤ R ∧ K ≤ C)`; otherwise it returns the `⌊(R-(K-1))/S⌋ × ⌊(C-(K-1))/S⌋
× B·K²` grid whose entry `(i, j)` at flat position `l` is the histogram value
of window cell `(l / (K·B), (l / B) mod K)`, bin `l mod B` — the row-major,
then-column, then-bin flattening of the `K×K` window at cell `(i·S, j·S)` —
divided by the window's Euclidean norm when that norm is nonzero (all-zero
windows are kept unchanged). -/
theorem C6_descriptor_shape_and_order (g : Grid3) (K S : ℕ)
    (hS : 0 < S) (h1 : 0 < g.d1) (h2 : 0 < g.d2) :
    (create_descriptor g K S = .error .invalidBlockConfig ↔
      ¬(K ≤ g.d1 ∧ K ≤ g.d2)) ∧
    (K ≤ g.d1 → K ≤ g.d2 →
      create_descriptor g K S = .ok (createDescriptorGrid g K S) ∧
      (createDescriptorGrid g K S).d1 = (g.d1 + 1 - K) / S ∧
      (createDescriptorGrid g K S).d2 = (g.d2 + 1 - K) / S ∧
      (createDescriptorGrid g K S).d3 = g.d3 * K ^ 2 ∧
      (∀ i j l : ℕ, i < (g.d1 + 1 - K) / S → j < (g.d2 + 1 - K) / S →
        l < g.d3 * K ^ 2 →
        (createDescriptorGrid g K S).val i j l =
          (if listNorm (windowFlatten g K S i j) = 0 then
            g.val (i * S + l / (K * g.d3)) (j * S + l / g.d3 % K) (l % g.d3)
           else
            g.val (i * S + l / (K * g.d3)) (j * S + l / g.d3 % K) (l % g.d3) /
              listNorm (windowFlatten g K S i j)))) := by
  constructor
  · by_cases hKd : K ≤ g.d1 ∧ K ≤ g.d2
    · rw [create_descriptor_ok g K S hKd.1 hKd.2 hS h1 h2]
      exact ⟨fun h => Except.noConfusion h, fun h => absurd hKd h⟩
    · unfold create_descriptor
      rw [if_neg (by omega), if_pos hKd]
      exact ⟨fun _ => hKd, fun _ => rfl⟩
  · intro hK1 hK2
    refine ⟨create_descriptor_ok g K S hK1 hK2 hS h1 h2, rfl, rfl, rfl, ?_⟩
    intro i j l hi hj hl
    rw [descVal_in_range g K S i j l hi hj hl]
    have hgetD : (windowFlatten g K S i j).getD l 0 =
        g.val (i * S + l / (K * g.d3)) (j * S + l / g.d3 % K) (l % g.d3) := by
      rw [windowFlatten_eq]
      exact getD_map_range _ (by
        rw [show K * (K * g.d3) = g.d3 * K ^ 2 from by ring]
        exact hl)
    rw [hgetD]

/-- Witness for the amended C6 at a concrete 2×3×2 histogram grid. -/
theorem C6_descriptor_shape_and_order_witness :
    (0 < 1 ∧ 0 < (⟨2, 3, 2, fun _ _ _ => 1⟩ : Grid3).d1 ∧
     0 < (⟨2, 3, 2, fun _ _ _ => 1⟩ : Grid3).d2) ∧
    ((create_descriptor ⟨2, 3, 2, fun _ _ _ => 1⟩ 2 1 = .error .invalidBlockConfig ↔
       ¬(2 ≤ (⟨2, 3, 2, fun _ _ _ => 1⟩ : Grid3).d1 ∧
         2 ≤ (⟨2, 3, 2, fun _ _ _ => 1⟩ : Grid3).d2)) ∧
     (2 ≤ (⟨2, 3, 2, fun _ _ _ => 1⟩ : Grid3).d1 →
      2 ≤ (⟨2, 3, 2, fun _ _ _ => 1⟩ : Grid3).d2 →
      create_descriptor ⟨2, 3, 2, fun _ _ _ => 1⟩ 2 1 =
        .ok (createDescriptorGrid ⟨2, 3, 2, fun _ _ _ => 1⟩ 2 1) ∧
      (createDescriptorGrid ⟨2, 3, 2, fun _ _ _ => 1⟩ 2 1).d1 =
        ((⟨2, 3, 2, fun _ _ _ => 1⟩ : Grid3).d1 + 1 - 2) / 1 ∧
      (createDescriptorGrid ⟨2, 3, 2, fun _ _ _ => 1⟩ 2 1).d2 =
        ((⟨2, 3, 2, fun _ _ _ => 1⟩ : Grid3).d2 + 1 - 2) / 1 ∧
      (createDescriptorGrid ⟨2, 3, 2, fun _ _ _ => 1⟩ 2 1).d3 =
        (⟨2, 3, 2, fun _ _ _ => 1⟩ : Grid3).d3 * 2 ^ 2 ∧
      (∀ i j l : ℕ,
        i < ((⟨2, 3, 2, fun _ _ _ => 1⟩ : Grid3).d1 + 1 - 2) / 1 →
        j < ((⟨2, 3, 2, fun _ _ _ => 1⟩ : Grid3).d2 + 1 - 2) / 1 →
        l < (⟨2, 3, 2, fun _ _ _ => 1⟩ : Grid3).d3 * 2 ^ 2 →
        (createDescriptorGrid ⟨2, 3, 2, fun _ _ _ => 1⟩ 2 1).val i j l =
          (if listNorm (windowFlatten ⟨2, 3, 2, fun _ _ _ => 1⟩ 2 1 i j) = 0 then
            (⟨2, 3, 2, fun _ _ _ => 1⟩ : Grid3).val
              (i * 1 + l / (2 * (⟨2, 3, 2, fun _ _ _ => 1⟩ : Grid3).d3))
              (j * 1 + l / (⟨2, 3, 2, fun _ _ _ => 1⟩ : Grid3).d3 % 2)
              (l % (⟨2, 3, 2, fun _ _ _ => 1⟩ : Grid3).d3)
           else
            (⟨2, 3, 2, fun _ _ _ => 1⟩ : Grid3).val
              (i * 1 + l / (2 * (⟨2, 3, 2, fun _ _ _ => 1⟩ : Grid3).d3))
              (j * 1 + l / (⟨2, 3, 2, fun _ _ _ => 1⟩ : Grid3).d3 % 2)
              (l % (⟨2, 3, 2, fun _ _ _ => 1⟩ : Grid3).d3) /
              listNorm (windowFlatten ⟨2, 3, 2, fun _ _ _ => 1⟩ 2 1 i j))))) :=
  ⟨⟨by decide, by decide, by decide⟩,
   C6_descriptor_shape_and_order ⟨2, 3, 2, fun _ _ _ => 1⟩ 2 1
     (by decide) (by decide) (by decide)⟩

/-! ### Lemmas for the cell-histogram grid stage -/

/-- When the cell slice fits inside the arrays, numpy's clipped slice is the
exact rectangular region. -/
lemma cellPixels_eq_region (mag orient : Img2) (cs i j : ℕ)
    (hr : (i + 1) * cs ≤ mag.rows) (hc : (j + 1) * cs ≤ mag.cols) :
    cellPixels mag orient cs i j =
      regionPixels mag orient (i * cs) ((i + 1) * cs) (j * cs) ((j + 1) * cs) := by
  unfold cellPixels regionPixels
  have hrow : ((List.range cs).map (fun r => i * cs + r)).filter
      (fun r => r < mag.rows) = (List.range cs).map (fun r => i * cs + r) := by
    rw [List.filter_eq_self]
    intro r hrm
    rw [List.mem_map] at hrm
    obtain ⟨t, ht, rfl⟩ := hrm
    have htc : t < cs := List.mem_range.mp ht
    have hsucc : (i + 1) * cs = i * cs + cs := by ring
    simp only [decide_eq_true_eq]
    omega
  have hcol : ((List.range cs).map (fun c => j * cs + c)).filter
      (fun c => c < mag.cols) = (List.range cs).map (fun c => j * cs + c) := by
    rw [List.filter_eq_self]
    intro c hcm
    rw [List.mem_map] at hcm
    obtain ⟨t, ht, rfl⟩ := hcm
    have htc : t < cs := List.mem_range.mp ht
    have hsucc : (j + 1) * cs = j * cs + cs := by ring
    simp only [decide_eq_true_eq]
    omega
  rw [hrow, hcol,
    show (i + 1) * cs - i * cs = cs from by
      have h3 : (i + 1) * cs = i * cs + cs := by ring
      omega,
    show (j + 1) * cs - j * cs = cs from by
      have h3 : (j + 1) * cs = j * cs + cs := by ring
      omega]
  simp only [List.flatMap_map, List.map_map, Function.comp_def]

/-- The success branch of `create_image_histograms`, stated explicitly. -/
lemma create_image_histograms_ok (img : Img2) (cs : ℕ) (hc : 0 < cs)
    (hM : img.cols % cs = 0) (hN : img.rows % cs = 0)
    (hidx : ¬(1 ≤ img.cols / cs ∧ img.cols / cs < img.rows / cs)) :
    create_image_histograms img cs = .ok
      (⟨img.cols / cs, img.cols / cs, 8, fun i j b =>
        if i < img.cols / cs ∧ j < img.rows / cs ∧ b < 8 then
          ((create_histogram (cellPixels
              (compute_magnitudes_and_orientations img).2
              (compute_magnitudes_and_orientations img).1 cs i j) 8).1).getD b 0
        else 0⟩,
       if 1 ≤ img.cols / cs ∧ 1 ≤ img.rows / cs then
         some (linspace (-π - π / 8) (π - π / 8) 9)
       else none) := by
  simp only [create_image_histograms]
  rw [if_neg (by omega), if_neg (not_not_intro hM), if_neg (not_not_intro hN),
    if_neg hidx]

/-- C9: with a positive cell size, `create_image_histograms` fails with the
unaligned-dimensions error exactly when a dimension of the image is not a
multiple of the cell size. -/
theorem C9_unaligned_dimensions_failure (img : Img2) (cs : ℕ) (hc : 0 < cs) :
    create_image_histograms img cs = .error .unalignedDimensions ↔
      ¬(img.rows % cs = 0 ∧ img.cols % cs = 0) := by
  simp only [create_image_histograms]
  rw [if_neg (by omega)]
  by_cases hM : img.cols % cs = 0
  · rw [if_neg (not_not_intro hM)]
    by_cases hN : img.rows % cs = 0
    · rw [if_neg (not_not_intro hN)]
      constructor
      · intro h
        by_cases hidx : 1 ≤ img.cols / cs ∧ img.cols / cs < img.rows / cs
        · rw [if_pos hidx] at h
          injection h with h2
          exact HogErr.noConfusion h2
        · rw [if_neg hidx] at h
          exact Except.noConfusion h
      · intro h
        exact absurd ⟨hN, hM⟩ h
    · rw [if_pos hN]
      exact ⟨fun _ hc2 => hN hc2.1, fun _ => rfl⟩
  · rw [if_pos hM]
    exact ⟨fun _ hc2 => hM hc2.2, fun _ => rfl⟩

/-- Witness for C9: a 10×10 image with cell size 3 fails as claimed. -/
theorem C9_unaligned_dimensions_failure_witness :
    0 < 3 ∧
    (create_image_histograms ⟨10, 10, fun _ _ => 0⟩ 3 = .error .unalignedDimensions ↔
      ¬((⟨10, 10, fun _ _ => 0⟩ : Img2).rows % 3 = 0 ∧
        (⟨10, 10, fun _ _ => 0⟩ : Img2).cols % 3 = 0)) :=
  ⟨by decide, C9_unaligned_dimensions_failure ⟨10, 10, fun _ _ => 0⟩ 3 (by decide)⟩

/-- C2 counterexample: an aligned 8-row × 16-column image with cell size 8
succeeds, but the returned grid has `16/8 = 2` rows of cells — the source
allocates `np.zeros((M//cell_size, M//cell_size, 8))` with the column count
`M` in both positions — whereas the claim demands `N//cell_size = 1` rows. -/
theorem C2_counterexample :
    (create_image_histograms ⟨8, 16, fun _ _ => 0⟩ 8).map (fun p => p.1.d1) =
      .ok 2 ∧
    (⟨8, 16, fun _ _ => 0⟩ : Img2).rows / 8 = 1 ∧ (2 : ℕ) ≠ 1 := by
  refine ⟨?_, by decide, by decide⟩
  rw [create_image_histograms_ok ⟨8, 16, fun _ _ => 0⟩ 8 (by decide) (by decide)
    (by decide) (by decide)]
  rfl

/-- C2 (amended): for square images (N = M) whose side is a multiple of the
cell size, `create_image_histograms` returns a grid of shape
`(N//cellSize) × (M//cellSize) × 8`, whose cell `(i, j)` is the histogram of
the image region rows `[i·cellSize, (i+1)·cellSize)`, columns
`[j·cellSize, (j+1)·cellSize)`.  (For non-square images the allocation bug
`M//cell_size × M//cell_size` makes the claimed shape wrong, as the
counterexample shows.) -/
theorem C2_square_image_grid (img : Img2) (cs : ℕ)
    (hsq : img.rows = img.cols) (hc : 0 < cs) (hd : img.rows % cs = 0) :
    ∃ g ticks, create_image_histograms img cs = .ok (g, ticks) ∧
      g.d1 = img.rows / cs ∧ g.d2 = img.cols / cs ∧ g.d3 = 8 ∧
      (∀ i j b : ℕ, i < img.rows / cs → j < img.cols / cs → b < 8 →
        g.val i j b = ((create_histogram (regionPixels
            (compute_magnitudes_and_orientations img).2
            (compute_magnitudes_and_orientations img).1
            (i * cs) ((i + 1) * cs) (j * cs) ((j + 1) * cs)) 8).1).getD b 0) := by
  have hdc : img.cols % cs = 0 := by rw [← hsq]; exact hd
  have hdveq : img.rows / cs = img.cols / cs := by rw [hsq]
  have hidx : ¬(1 ≤ img.cols / cs ∧ img.cols / cs < img.rows / cs) := by
    rintro ⟨-, hlt⟩
    rw [hdveq] at hlt
    exact lt_irrefl _ hlt
  refine ⟨_, _, create_image_histograms_ok img cs hc hdc hd hidx,
    hdveq.symm, rfl, rfl, ?_⟩
  intro i j b hi hj hb
  have hcond : i < img.cols / cs ∧ j < img.rows / cs ∧ b < 8 :=
    ⟨hdveq ▸ hi, hdveq.symm ▸ hj, hb⟩
  show (if i < img.cols / cs ∧ j < img.rows / cs ∧ b < 8 then
      ((create_histogram (cellPixels
          (compute_magnitudes_and_orientations img).2
          (compute_magnitudes_and_orientations img).1 cs i j) 8).1).getD b 0
    else 0) = _
  rw [if_pos hcond]
  have hrb : (i + 1) * cs ≤ img.rows := by
    have h4 : (i + 1) * cs ≤ (img.rows / cs) * cs :=
      Nat.mul_le_mul_right cs (Nat.succ_le_of_lt hi)
    rwa [Nat.div_mul_cancel (Nat.dvd_of_mod_eq_zero hd)] at h4
  have hcb : (j + 1) * cs ≤ img.cols := by
    have h4 : (j + 1) * cs ≤ (img.cols / cs) * cs :=
      Nat.mul_le_mul_right cs (Nat.succ_le_of_lt hj)
    rwa [Nat.div_mul_cancel (Nat.dvd_of_mod_eq_zero hdc)] at h4
  rw [cellPixels_eq_region (compute_magnitudes_and_orientations img).2
    (compute_magnitudes_and_orientations img).1 cs i j hrb hcb]

/-- Witness for the amended C2 at a concrete all-zero 8×8 image, cell size 8. -/
theorem C2_square_image_grid_witness :
    ((⟨8, 8, fun _ _ => 0⟩ : Img2).rows = (⟨8, 8, fun _ _ => 0⟩ : Img2).cols ∧
     0 < 8 ∧ (⟨8, 8, fun _ _ => 0⟩ : Img2).rows % 8 = 0) ∧
    (∃ g ticks, create_image_histograms ⟨8, 8, fun _ _ => 0⟩ 8 = .ok (g, ticks) ∧
      g.d1 = (⟨8, 8, fun _ _ => 0⟩ : Img2).rows / 8 ∧
      g.d2 = (⟨8, 8, fun _ _ => 0⟩ : Img2).cols / 8 ∧ g.d3 = 8 ∧
      (∀ i j b : ℕ, i < (⟨8, 8, fun _ _ => 0⟩ : Img2).rows / 8 →
        j < (⟨8, 8, fun _ _ => 0⟩ : Img2).cols / 8 → b < 8 →
        g.val i j b = ((create_histogram (regionPixels
            (compute_magnitudes_and_orientations ⟨8, 8, fun _ _ => 0⟩).2
            (compute_magnitudes_and_orientations ⟨8, 8, fun _ _ => 0⟩).1
            (i * 8) ((i + 1) * 8) (j * 8) ((j + 1) * 8)) 8).1).getD b 0)) :=
  ⟨⟨by decide, by decide, by decide⟩,
   C2_square_image_grid ⟨8, 8, fun _ _ => 0⟩ 8 (by decide) (by decide) (by decide)⟩
